import Mathlib

/-!
Verification model of the X-AutoScraper job-orchestration core
(`src/app.py`, `src/services/job_store.py`, `src/services/checkpoint.py`).

Dates are modelled as day offsets (`Nat`); the source stores dates as
`YYYY-MM-DD` strings produced by `strftime`, an order-preserving injective
encoding, so arithmetic on day offsets is faithful to `timedelta` arithmetic.
Scraped records are modelled by their deduplication key (`url`, where a
missing key reads as the empty string, as `tweet.get('url', '')` does) plus
a representative payload field (`text`).
-/

namespace AutoScraper

/-- A scraped record: the canonical identity key `url` (empty string when the
source dict has no such key) and a stand-in `text` payload distinguishing
different copies that share a URL. -/
structure Record where
  url : String
  text : String
deriving DecidableEq, Repr

/-- The shared accumulator mutated under `data_lock` in
`run_auto_expand_batch`: the `seen_urls` set and the `all_tweets` list. -/
structure AccState where
  seen_urls : Finset String
  all_tweets : List Record
deriving DecidableEq

/-- Embeds the per-tweet merge step of `scrape_single_work_item`
(src/app.py lines 844-851): accept the tweet iff its `url` is non-empty
(Python truthiness of `tweet.get('url', '')`) and not already in `seen_urls`;
acceptance inserts the url into the set and appends the tweet to the list. -/
def mergeOne (acc : AccState) (tweet : Record) : AccState :=
  if tweet.url ≠ "" ∧ tweet.url ∉ acc.seen_urls then
    { seen_urls := insert tweet.url acc.seen_urls,
      all_tweets := acc.all_tweets ++ [tweet] }
  else acc

/-- The `for tweet in tweets` merge loop of `scrape_single_work_item`,
folding `mergeOne` over the fetched batch. The Google fallback loop
(src/app.py lines 952-958) performs the identical check-and-insert with
`item.get('url')`, so it shares this definition. -/
def mergeRecords (acc : AccState) (tweets : List Record) : AccState :=
  tweets.foldl mergeOne acc

/-- C1: a record is accepted (appended to the list, url added to the set) iff
its url is non-empty and unseen; merging the same record twice grows the
unique count by exactly 1; a later record with the same url never displaces
the first-seen copy; an empty-url record is never accepted. -/
theorem dedup_accept_iff (acc : AccState) (r : Record) :
    (r.url ≠ "" ∧ r.url ∉ acc.seen_urls →
      mergeOne acc r =
        { seen_urls := insert r.url acc.seen_urls,
          all_tweets := acc.all_tweets ++ [r] }) ∧
    (r.url = "" ∨ r.url ∈ acc.seen_urls → mergeOne acc r = acc) ∧
    (r.url ≠ "" → r.url ∉ acc.seen_urls →
      (mergeRecords acc [r, r]).all_tweets.length = acc.all_tweets.length + 1) ∧
    (∀ r2 : Record, r2.url = r.url → r.url ≠ "" →
      mergeOne (mergeOne acc r) r2 = mergeOne acc r) := by
  refine ⟨?_, ?_, ?_, ?_⟩
  · intro h
    simp [mergeOne, h]
  · intro h
    have : ¬ (r.url ≠ "" ∧ r.url ∉ acc.seen_urls) := by
      rcases h with h | h
      · intro hc; exact hc.1 h
      · intro hc; exact hc.2 h
    simp [mergeOne, this]
  · intro h1 h2
    have hfirst : mergeOne acc r =
        { seen_urls := insert r.url acc.seen_urls,
          all_tweets := acc.all_tweets ++ [r] } := by
      simp [mergeOne, h1, h2]
    have hsecond : mergeOne (mergeOne acc r) r = mergeOne acc r := by
      rw [hfirst]
      have : ¬ (r.url ≠ "" ∧ r.url ∉ insert r.url acc.seen_urls) := by
        intro hc
        exact hc.2 (Finset.mem_insert_self _ _)
      simp [mergeOne, this]
    simp only [mergeRecords, List.foldl]
    rw [hsecond, hfirst]
    simp
  · intro r2 hr2 hne
    by_cases hmem : r.url ∈ acc.seen_urls
    · have hnoop : mergeOne acc r = acc := by
        have : ¬ (r.url ≠ "" ∧ r.url ∉ acc.seen_urls) := fun hc => hc.2 hmem
        simp [mergeOne, this]
      rw [hnoop]
      have : ¬ (r2.url ≠ "" ∧ r2.url ∉ acc.seen_urls) := by
        intro hc; exact hc.2 (hr2 ▸ hmem)
      simp [mergeOne, this]
    · have hfirst : mergeOne acc r =
          { seen_urls := insert r.url acc.seen_urls,
            all_tweets := acc.all_tweets ++ [r] } := by
        simp [mergeOne, hne, hmem]
      rw [hfirst]
      have : ¬ (r2.url ≠ "" ∧ r2.url ∉ insert r.url acc.seen_urls) := by
        intro hc
        exact hc.2 (hr2 ▸ Finset.mem_insert_self _ _)
      simp only [mergeOne, if_neg this]

/-- Concrete instance of C1: merging the same record twice into the empty
accumulator yields a single stored copy. -/
theorem dedup_accept_iff_witness :
    (mergeRecords ⟨∅, []⟩ [⟨"u", "a"⟩, ⟨"u", "a"⟩]).all_tweets.length = 0 + 1 := by
  have h := dedup_accept_iff ⟨∅, []⟩ ⟨"u", "a"⟩
  exact h.2.2.1 (by decide) (by simp)

/-- One work item of the auto-expand grid, as built in `run_auto_expand_batch`
(src/app.py lines 729-741): one (variation, date-chunk) pair together with the
enumeration indices the source stores in the dict. The item's ordinal is its
position in the grid list. -/
structure WorkItem where
  variation_idx : Nat
  variation : String
  chunk_idx : Nat
  chunk_start : String
  chunk_end : String
deriving DecidableEq, Repr

/-- Inner loop of the grid builder: all chunks for one variation, with
`chunk_idx` counting from `j`. -/
def buildRow (i : Nat) (v : String) (j : Nat) : List (String × String) → List WorkItem
  | [] => []
  | c :: cs => ⟨i, v, j, c.1, c.2⟩ :: buildRow i v (j + 1) cs

/-- Outer loop of the grid builder: rows for each variation, with
`variation_idx` counting from `i`. -/
def buildGridAux (i : Nat) : List String → List (String × String) → List WorkItem
  | [], _ => []
  | v :: vs, cs => buildRow i v 0 cs ++ buildGridAux (i + 1) vs cs

/-- Embeds the nested `for i, variation in enumerate(variations)` /
`for chunk_idx, ... in enumerate(date_chunks)` work-grid construction of
`run_auto_expand_batch` (src/app.py lines 729-741). It is a pure function of
the two lists. -/
def buildGrid (variations : List String) (date_chunks : List (String × String)) :
    List WorkItem :=
  buildGridAux 0 variations date_chunks

theorem buildRow_length (i : Nat) (v : String) (j : Nat) (cs : List (String × String)) :
    (buildRow i v j cs).length = cs.length := by
  induction cs generalizing j with
  | nil => rfl
  | cons c cs ih => simp [buildRow, ih]

theorem buildRow_getElem? (i : Nat) (v : String) (j k : Nat)
    (cs : List (String × String)) (hk : k < cs.length) :
    (buildRow i v j cs)[k]? =
      some ⟨i, v, j + k, (cs.getD k ("", "")).1, (cs.getD k ("", "")).2⟩ := by
  induction cs generalizing j k with
  | nil => simp at hk
  | cons c cs ih =>
    cases k with
    | zero => simp [buildRow]
    | succ k =>
      have hk' : k < cs.length := by simpa using hk
      have harith : j + (k + 1) = (j + 1) + k := by omega
      simp only [buildRow, List.getElem?_cons_succ, List.getD_cons_succ, harith]
      exact ih (j + 1) k hk'

theorem buildGridAux_length (i : Nat) (vs : List String) (cs : List (String × String)) :
    (buildGridAux i vs cs).length = vs.length * cs.length := by
  induction vs generalizing i with
  | nil => simp [buildGridAux]
  | cons v vs ih =>
    simp only [buildGridAux, List.length_append, buildRow_length, ih, List.length_cons,
      Nat.succ_mul]
    omega

theorem buildGridAux_getElem? (i0 : Nat) (vs : List String) (cs : List (String × String))
    (i j : Nat) (hi : i < vs.length) (hj : j < cs.length) :
    (buildGridAux i0 vs cs)[i * cs.length + j]? =
      some ⟨i0 + i, vs.getD i "", j, (cs.getD j ("", "")).1, (cs.getD j ("", "")).2⟩ := by
  induction vs generalizing i0 i with
  | nil => simp at hi
  | cons v vs ih =>
    cases i with
    | zero =>
      have hlen : 0 * cs.length + j < (buildRow i0 v 0 cs).length := by
        rw [buildRow_length]; omega
      simp only [buildGridAux]
      rw [List.getElem?_append_left hlen]
      have := buildRow_getElem? i0 v 0 j cs hj
      simpa using this
    | succ i =>
      have hi' : i < vs.length := by simpa using hi
      have hrow : (buildRow i0 v 0 cs).length = cs.length := buildRow_length ..
      have hsucc : (i + 1) * cs.length + j = cs.length + (i * cs.length + j) := by
        rw [Nat.succ_mul]; omega
      have hge : (buildRow i0 v 0 cs).length ≤ (i + 1) * cs.length + j := by
        rw [hrow, hsucc]; omega
      simp only [buildGridAux]
      rw [List.getElem?_append_right hge, hrow, hsucc, Nat.add_sub_cancel_left]
      have harith : i0 + (i + 1) = (i0 + 1) + i := by omega
      rw [List.getD_cons_succ, harith]
      exact ih (i0 + 1) i hi'

/-- C4: the work grid has exactly `len(V) * len(C)` items, and the item at
ordinal `i * len(C) + j` is the pair of variation `i` and chunk `j` — dense
zero-based row-major order. `buildGrid` is a pure function of `V` and `C`. -/
theorem build_grid_row_major (V : List String) (C : List (String × String)) :
    (buildGrid V C).length = V.length * C.length ∧
    ∀ i j, i < V.length → j < C.length →
      (buildGrid V C)[i * C.length + j]? =
        some ⟨i, V.getD i "", j, (C.getD j ("", "")).1, (C.getD j ("", "")).2⟩ := by
  refine ⟨buildGridAux_length 0 V C, ?_⟩
  intro i j hi hj
  have := buildGridAux_getElem? 0 V C i j hi hj
  simpa [buildGrid] using this

/-- Concrete instance of C4: a 2-variation × 2-chunk grid has 4 items and
item at ordinal 1 * 2 + 0 = 2 is (variation 1, chunk 0). -/
theorem build_grid_row_major_witness :
    (buildGrid ["a", "b"] [("s1", "e1"), ("s2", "e2")]).length = 2 * 2 ∧
    (buildGrid ["a", "b"] [("s1", "e1"), ("s2", "e2")])[1 * 2 + 0]? =
      some ⟨1, "b", 0, "s1", "e1"⟩ := by
  have h := build_grid_row_major ["a", "b"] [("s1", "e1"), ("s2", "e2")]
  exact ⟨h.1, by simpa using h.2 1 0 (by decide) (by decide)⟩

/-- The checkpoint snapshot written by `save_checkpoint` in
`run_auto_expand_batch` (src/app.py lines 917-928): the JSON-serializable
fields of the saved dict that the resume path reads back. -/
structure Checkpoint where
  base_keyword : String
  variations : List String
  date_chunks : List (String × String)
  all_tweets : List Record
  seen_urls : List String
  current_chunk_idx : Nat
  total_chunks : Nat
deriving DecidableEq

/-- Embeds the checkpoint save (src/app.py lines 917-928 together with
`services/checkpoint.py:save_checkpoint`): the accumulator's `seen_urls` set
is serialized as `list(seen_urls)` (modelled as the sorted element list, a
deterministic stand-in for Python's arbitrary set iteration order) and
`all_tweets` is stored verbatim. File I/O and JSON encoding are modelled as
the identity on this data. -/
def save_checkpoint (base_keyword : String) (variations : List String)
    (date_chunks : List (String × String)) (acc : AccState)
    (current_chunk_idx total_chunks : Nat) : Checkpoint :=
  { base_keyword := base_keyword
    variations := variations
    date_chunks := date_chunks
    all_tweets := acc.all_tweets
    seen_urls := acc.seen_urls.sort (· ≤ ·)
    current_chunk_idx := current_chunk_idx
    total_chunks := total_chunks }

/-- Embeds the resume path of `run_auto_expand_batch` (src/app.py lines
763-768): `all_tweets = checkpoint.get('all_tweets', [])`,
`seen_urls = set(checkpoint.get('seen_urls', []))`, and
`start_from = checkpoint.get('current_chunk_idx', 0) + 1`. -/
def load_checkpoint_state (cp : Checkpoint) : AccState × Nat :=
  ({ seen_urls := cp.seen_urls.toFinset, all_tweets := cp.all_tweets },
    cp.current_chunk_idx + 1)

/-- Embeds the pending-work filter of `run_auto_expand_batch` (src/app.py
line 873): `[(idx, w) for idx, w in enumerate(work_items) if idx >= start_from]`. -/
def pendingWork (work_items : List WorkItem) (start_from : Nat) :
    List (Nat × WorkItem) :=
  work_items.enum.filter (fun p => start_from ≤ p.1)

/-- C2: reloading a saved checkpoint restores the seen-URL set and the record
list verbatim, the resume offset is the saved index plus one, and resuming
from restored index `k` selects exactly the work items with ordinal `≥ k + 1`,
each exactly once (no ordinal `≤ k` re-run, none `≥ k + 1` skipped). -/
theorem checkpoint_roundtrip_resume (acc : AccState) (bk : String)
    (vs : List String) (dc : List (String × String)) (k total : Nat)
    (w : List WorkItem) :
    (load_checkpoint_state (save_checkpoint bk vs dc acc k total)).1.seen_urls
        = acc.seen_urls ∧
    (load_checkpoint_state (save_checkpoint bk vs dc acc k total)).1.all_tweets
        = acc.all_tweets ∧
    (load_checkpoint_state (save_checkpoint bk vs dc acc k total)).2 = k + 1 ∧
    ((pendingWork w (k + 1)).map Prod.fst).Nodup ∧
    (∀ idx it, (idx, it) ∈ pendingWork w (k + 1) ↔ (k + 1 ≤ idx ∧ w[idx]? = some it)) := by
  refine ⟨?_, rfl, rfl, ?_, ?_⟩
  · simp [load_checkpoint_state, save_checkpoint, Finset.sort_toFinset]
  · have hsub : List.Sublist ((pendingWork w (k + 1)).map Prod.fst)
        (w.enum.map Prod.fst) :=
      (List.filter_sublist w.enum).map Prod.fst
    exact (List.nodup_enum_map_fst w).sublist hsub
  · intro idx it
    constructor
    · intro h
      have h' := List.mem_filter.mp h
      have hmem : w[idx]? = some it := List.mk_mem_enum_iff_getElem?.mp h'.1
      have hge : k + 1 ≤ idx := by simpa using h'.2
      exact ⟨hge, hmem⟩
    · intro h
      refine List.mem_filter.mpr ⟨List.mk_mem_enum_iff_getElem?.mpr h.2, ?_⟩
      simpa using h.1

/-- Concrete instance of C2: for the 2 × 5 grid (10 work items) and a
checkpoint at index 4, the resume offset is 5 and exactly the ordinals 5..9
are pending, without duplicates. -/
theorem checkpoint_roundtrip_resume_witness :
    (load_checkpoint_state (save_checkpoint "kw" [] [] ⟨∅, []⟩ 4 10)).2 = 4 + 1 ∧
    ((pendingWork (buildGrid ["a", "b"]
        [("1", "2"), ("2", "3"), ("3", "4"), ("4", "5"), ("5", "6")]) (4 + 1)).map
          Prod.fst).Nodup ∧
    ((4, (buildGrid ["a", "b"]
        [("1", "2"), ("2", "3"), ("3", "4"), ("4", "5"), ("5", "6")]).getD 4
          ⟨0, "", 0, "", ""⟩) ∈
      pendingWork (buildGrid ["a", "b"]
        [("1", "2"), ("2", "3"), ("3", "4"), ("4", "5"), ("5", "6")]) (4 + 1) ↔
      (4 + 1 ≤ 4 ∧ (buildGrid ["a", "b"]
        [("1", "2"), ("2", "3"), ("3", "4"), ("4", "5"), ("5", "6")])[4]? =
          some ((buildGrid ["a", "b"]
        [("1", "2"), ("2", "3"), ("3", "4"), ("4", "5"), ("5", "6")]).getD 4
          ⟨0, "", 0, "", ""⟩))) := by
  have h := checkpoint_roundtrip_resume ⟨∅, []⟩ "kw" [] [] 4 10
    (buildGrid ["a", "b"] [("1", "2"), ("2", "3"), ("3", "4"), ("4", "5"), ("5", "6")])
  exact ⟨h.2.2.1, h.2.2.2.1, h.2.2.2.2 4 _⟩

/-- Fuel-based embedding of the chunking while-loop
(`while current < end: chunk_end = min(current + chunk_days, end); ...`).
Fuel `e - current` suffices because each iteration advances `current` by at
least one day whenever `1 ≤ chunk_days`. -/
def dateChunksAux (chunk_days e : Nat) : Nat → Nat → List (Nat × Nat)
  | 0, _ => []
  | fuel + 1, current =>
    if current < e then
      (current, min (current + chunk_days) e) ::
        dateChunksAux chunk_days e fuel (min (current + chunk_days) e)
    else []

/-- Embeds `generate_date_chunks` (src/app.py lines 193-211), with dates as
day offsets: repeatedly emit `(current, min(current + chunk_days, end))`
until `current` reaches `end`. -/
def generate_date_chunks (start_date end_date chunk_days : Nat) : List (Nat × Nat) :=
  dateChunksAux chunk_days end_date (end_date - start_date) start_date

/-- Embeds the adaptive chunk-size selection of `run_auto_expand_batch`
(src/app.py lines 692-700): more than 180 days → 30-day chunks, more than
60 days → 14-day chunks, otherwise 7-day chunks. -/
def adaptive_chunk_days (range_days : Nat) : Nat :=
  if 180 < range_days then 30 else if 60 < range_days then 14 else 7

/-- Embeds the manual-dates chunking branch of `run_auto_expand_batch`
(src/app.py lines 686-711): pick the adaptive chunk size for the range, then
run the same while-loop as `generate_date_chunks`. -/
def adaptive_date_chunks (s e : Nat) : List (Nat × Nat) :=
  generate_date_chunks s e (adaptive_chunk_days (e - s))

/-- Decidable tiling predicate: `isChainB s cs e` holds when the chunk list
`cs` covers the range from `s` to `e` exactly — the first chunk starts at
`s`, every chunk is non-degenerate, consecutive chunks abut (no gap and no
overlap), the last chunk ends at `e`, and the empty list qualifies only when
`s = e`. -/
def isChainB (s : Nat) : List (Nat × Nat) → Nat → Bool
  | [], e => s == e
  | c :: rest, e => (c.1 == s) && (decide (s < c.2)) && isChainB c.2 rest e

theorem dateChunksAux_chain (d e : Nat) (hd : 1 ≤ d) :
    ∀ fuel current, current ≤ e → e - current ≤ fuel →
      isChainB current (dateChunksAux d e fuel current) e = true := by
  intro fuel
  induction fuel with
  | zero =>
    intro current hle hfuel
    have hc : current = e := by omega
    simp [dateChunksAux, isChainB, hc]
  | succ fuel ih =>
    intro current hle hfuel
    by_cases hlt : current < e
    · have hmin_le : min (current + d) e ≤ e := Nat.min_le_right ..
      have hgt : current < min (current + d) e := by omega
      have hfuel' : e - min (current + d) e ≤ fuel := by omega
      simp only [dateChunksAux, if_pos hlt, isChainB, Bool.and_eq_true, beq_iff_eq,
        decide_eq_true_eq]
      refine ⟨⟨?_, hgt⟩, ih _ hmin_le hfuel'⟩
      simp
    · have hc : current = e := by omega
      simp [dateChunksAux, hlt, isChainB, hc]

theorem dateChunksAux_sizes (d e : Nat) :
    ∀ fuel current, ∀ c ∈ dateChunksAux d e fuel current, c.2 = min (c.1 + d) e := by
  intro fuel
  induction fuel with
  | zero => intro current c hc; simp [dateChunksAux] at hc
  | succ fuel ih =>
    intro current c hc
    by_cases hlt : current < e
    · simp only [dateChunksAux, if_pos hlt, List.mem_cons] at hc
      rcases hc with rfl | hc
      · rfl
      · exact ih _ c hc
    · simp [dateChunksAux, hlt] at hc

/-- C5: for `start < end` the adaptive chunker tiles the range exactly — the
first chunk starts at `start`, consecutive chunks abut (no gaps, no
overlaps), every chunk is non-degenerate and the last ends at `end`; every
chunk spans the adaptive size clipped at `end`; and the adaptive size is 30
days for a 200-day range, 14 for a 90-day range, 7 for a 20-day range. -/
theorem date_chunk_coverage (s e : Nat) (h : s < e) :
    isChainB s (adaptive_date_chunks s e) e = true ∧
    (∀ c ∈ adaptive_date_chunks s e,
      c.2 = min (c.1 + adaptive_chunk_days (e - s)) e) ∧
    adaptive_chunk_days 200 = 30 ∧ adaptive_chunk_days 90 = 14 ∧
    adaptive_chunk_days 20 = 7 := by
  have hd : 1 ≤ adaptive_chunk_days (e - s) := by
    simp only [adaptive_chunk_days]
    split_ifs <;> omega
  refine ⟨?_, ?_, by decide, by decide, by decide⟩
  · exact dateChunksAux_chain _ _ hd _ s (Nat.le_of_lt h) (Nat.le_refl _)
  · intro c hc
    exact dateChunksAux_sizes _ _ _ _ c hc

/-- Concrete instance of C5: a 20-day range chunks into an exact 7-day
tiling of the interval from day 0 to day 20. -/
theorem date_chunk_coverage_witness :
    0 < 20 ∧ isChainB 0 (adaptive_date_chunks 0 20) 20 = true :=
  ⟨by decide, (date_chunk_coverage 0 20 (by decide)).1⟩

/-- C9 counterexample: a zero-length explicit range (start = end, here day 5,
with the default 7-day chunk size) yields the empty chunk list, not the
single degenerate chunk the claim requires — the while-loop guard
`current < end` fails immediately. -/
theorem zero_length_range_counterexample :
    generate_date_chunks 5 5 7 = [] ∧ adaptive_date_chunks 5 5 = [] ∧
    generate_date_chunks 5 5 7 ≠ [(5, 5)] := by decide

/-- C9 amended: a zero-length explicit date range yields the empty chunk
list (no chunks at all), for every start day and chunk size, hence also
under the adaptive chunk size. -/
theorem zero_length_range_amended (s d : Nat) :
    generate_date_chunks s s d = [] ∧ adaptive_date_chunks s s = [] := by
  constructor <;>
    simp [generate_date_chunks, adaptive_date_chunks, Nat.sub_self, dateChunksAux]

/-- Embeds the submission loop of `run_auto_expand_batch` (src/app.py lines
887-899): iterate over the pending work items, break when the shutdown flag
is observed, otherwise submit the item to the pool. The loop consults only
the shutdown flag — the accumulated tweet count is not an input to it. The
stagger sleeps do not affect which items get submitted. -/
def submitLoop (shutdownFlag : Nat → Bool) :
    Nat → List (Nat × WorkItem) → List (Nat × WorkItem)
  | _, [] => []
  | i, w :: ws => if shutdownFlag i then [] else w :: submitLoop shutdownFlag (i + 1) ws

/-- Folds whole per-item result batches into the accumulator, in completion
order. -/
def mergeBatches (acc : AccState) (batches : List (Nat × List Record)) : AccState :=
  batches.foldl (fun a b => mergeRecords a b.2) acc

/-- Sequential model of the `as_completed` result loop of
`run_auto_expand_batch` (src/app.py lines 902-914): each completed item's
records are merged into the accumulator (the worker did this before its
future completed), then the loop breaks once, in capped mode
(`not unlimited_mode`), the accumulated count has reached `safety_cap`;
later completions are not processed — their futures are cancelled or
ignored. Returns the final accumulator and the processed ordinals in order. -/
def processCompletions (unlimited : Bool) (safety_cap : Nat) :
    AccState → List (Nat × List Record) → AccState × List Nat
  | acc, [] => (acc, [])
  | acc, (idx, tweets) :: rest =>
    let acc2 := mergeRecords acc tweets
    if unlimited = false ∧ safety_cap ≤ acc2.all_tweets.length then (acc2, [idx])
    else
      let r := processCompletions unlimited safety_cap acc2 rest
      (r.1, idx :: r.2)

theorem submitLoop_all (i : Nat) (pend : List (Nat × WorkItem)) :
    submitLoop (fun _ => false) i pend = pend := by
  induction pend generalizing i with
  | nil => rfl
  | cons w ws ih => simp [submitLoop, ih]

theorem processCompletions_spec (unlimited : Bool) (cap : Nat) :
    ∀ (results : List (Nat × List Record)) (acc : AccState),
      (processCompletions unlimited cap acc results).2 =
        (results.map Prod.fst).take
          (processCompletions unlimited cap acc results).2.length ∧
      (processCompletions unlimited cap acc results).1 =
        mergeBatches acc (results.take
          (processCompletions unlimited cap acc results).2.length) ∧
      (∀ m, 1 ≤ m → m < (processCompletions unlimited cap acc results).2.length →
        ¬(unlimited = false ∧
          cap ≤ (mergeBatches acc (results.take m)).all_tweets.length)) ∧
      ((processCompletions unlimited cap acc results).2.length < results.length →
        unlimited = false ∧
          cap ≤ (processCompletions unlimited cap acc results).1.all_tweets.length) := by
  intro results
  induction results with
  | nil =>
    intro acc
    refine ⟨rfl, rfl, ?_, ?_⟩
    · intro m h1 h2
      simp [processCompletions] at h2
    · intro h
      simp [processCompletions] at h
  | cons b rest ih =>
    intro acc
    obtain ⟨idx, tweets⟩ := b
    by_cases hstop : unlimited = false ∧ cap ≤ (mergeRecords acc tweets).all_tweets.length
    · simp only [processCompletions, if_pos hstop]
      refine ⟨by simp, by simp [mergeBatches], ?_, fun _ => hstop⟩
      intro m h1 h2
      simp at h2
      omega
    · simp only [processCompletions, if_neg hstop]
      obtain ⟨ih1, ih2, ih3, ih4⟩ := ih (mergeRecords acc tweets)
      refine ⟨?_, ?_, ?_, ?_⟩
      · simp only [List.map_cons, List.length_cons, List.take_succ_cons]
        exact congrArg (List.cons idx) ih1
      · simp only [List.length_cons, List.take_succ_cons]
        exact ih2
      · intro m h1 h2
        simp only [List.length_cons] at h2
        cases m with
        | zero => omega
        | succ m =>
          rw [List.take_succ_cons]
          cases Nat.eq_zero_or_pos m with
          | inl hm0 =>
            subst hm0
            simpa [mergeBatches] using hstop
          | inr hmpos =>
            have := ih3 m hmpos (by omega)
            simpa [mergeBatches] using this
      · intro hlen
        simp only [List.length_cons] at hlen
        exact ih4 (by omega)

/-- C3 counterexample: in capped mode with target 2, an accumulator that
already holds 2 unique records (count at the target, e.g. restored from a
checkpoint), and two still-pending work items, the submission loop still
submits both items — it checks only the shutdown flag and never the
accumulated count, so the claimed "never submits another work item once the
target is reached" fails at this input. -/
theorem early_stop_counterexample :
    2 ≤ (mergeRecords ⟨∅, []⟩ [⟨"u1", "a"⟩, ⟨"u2", "b"⟩]).all_tweets.length ∧
    (pendingWork (buildGrid ["kw"] [("d0", "d1"), ("d1", "d2"), ("d2", "d3")]) 1).length
      = 2 ∧
    submitLoop (fun _ => false) 0
        (pendingWork (buildGrid ["kw"] [("d0", "d1"), ("d1", "d2"), ("d2", "d3")]) 1) =
      pendingWork (buildGrid ["kw"] [("d0", "d1"), ("d1", "d2"), ("d2", "d3")]) 1 ∧
    pendingWork (buildGrid ["kw"] [("d0", "d1"), ("d1", "d2"), ("d2", "d3")]) 1 ≠ [] := by
  decide

/-- C3 amended: submission is independent of the accumulated count — absent
a shutdown request every pending item is submitted even when the target is
already reached. Early termination lives in the result-processing loop
instead: in capped mode it stops at the first completed item at which the
accumulated unique count reaches the target, so in the sequential
completion-order model the processed items are exactly the shortest prefix
of the completion sequence whose merge reaches the target (all items when
the target is never reached), and completions past that point are cancelled
or ignored. -/
theorem early_stop_amended (unlimited : Bool) (cap : Nat) (acc : AccState)
    (results : List (Nat × List Record)) :
    (∀ i pend, submitLoop (fun _ => false) i pend = pend) ∧
    (processCompletions unlimited cap acc results).2 =
      (results.map Prod.fst).take
        (processCompletions unlimited cap acc results).2.length ∧
    (processCompletions unlimited cap acc results).1 =
      mergeBatches acc (results.take
        (processCompletions unlimited cap acc results).2.length) ∧
    (∀ m, 1 ≤ m → m < (processCompletions unlimited cap acc results).2.length →
      ¬(unlimited = false ∧
        cap ≤ (mergeBatches acc (results.take m)).all_tweets.length)) ∧
    ((processCompletions unlimited cap acc results).2.length < results.length →
      unlimited = false ∧
        cap ≤ (processCompletions unlimited cap acc results).1.all_tweets.length) := by
  obtain ⟨h1, h2, h3, h4⟩ := processCompletions_spec unlimited cap results acc
  exact ⟨submitLoop_all, h1, h2, h3, h4⟩

/-- Concrete instance of C3 (amended): with target 2 and three completions of
one unique record each, the processed ordinals are a prefix of the
completion order. -/
theorem early_stop_amended_witness :
    (processCompletions false 2 ⟨∅, []⟩
        [(0, [⟨"a", "x"⟩]), (1, [⟨"b", "y"⟩]), (2, [⟨"c", "z"⟩])]).2 =
      ([(0, [(⟨"a", "x"⟩ : Record)]), (1, [⟨"b", "y"⟩]), (2, [⟨"c", "z"⟩])].map
        Prod.fst).take
        (processCompletions false 2 ⟨∅, []⟩
          [(0, [⟨"a", "x"⟩]), (1, [⟨"b", "y"⟩]), (2, [⟨"c", "z"⟩])]).2.length :=
  (early_stop_amended false 2 ⟨∅, []⟩ _).2.1

/-- Job status values used by the source (`job_store.py` stores them as
strings; the terminal decision code writes COMPLETED or FAILED). -/
inductive JobStatus where
  | RUNNING
  | COMPLETED
  | FAILED
  | CANCELLING
deriving DecidableEq, Repr

/-- Embeds the terminal-status decision of `run_auto_expand_batch`
(src/app.py lines 973-1000): a non-empty accumulated list materializes the
CSV artifact and marks the job COMPLETED with the artifact filename and a
count message; an empty list marks it FAILED with the message
`No tweets found` and a null artifact reference. Writing the CSV file is
modelled as producing its filename. -/
def finalizeAutoExpand (all_tweets : List Record) (num_variations : Nat)
    (filename : String) : JobStatus × String × Option String :=
  if all_tweets ≠ [] then
    (JobStatus.COMPLETED,
      "Found " ++ toString all_tweets.length ++ " unique tweets (from " ++
        toString num_variations ++ " keywords)", some filename)
  else (JobStatus.FAILED, "No tweets found", none)

/-- Embeds the terminal-status decision of `run_scraper_thread`
(src/app.py lines 487-491): a positive final count marks the job COMPLETED
with the result filename, a zero count marks it FAILED with a null result
reference. -/
def finalizeScraperThread (result_tweets_count : Nat) (filename : String) :
    JobStatus × String × Option String :=
  if 0 < result_tweets_count then
    (JobStatus.COMPLETED, "Found " ++ toString result_tweets_count ++ " tweets",
      some filename)
  else (JobStatus.FAILED, "No tweets found", none)

/-- C7: the job finishes COMPLETED iff the final accumulated collection is
non-empty, in which case the result artifact reference is stored; a zero
result yields FAILED with the descriptive message and a null artifact
reference — in both terminal decision sites. -/
theorem terminal_status_iff_nonempty (tweets : List Record) (nvars : Nat)
    (fname : String) :
    ((finalizeAutoExpand tweets nvars fname).1 = JobStatus.COMPLETED ↔ tweets ≠ []) ∧
    (tweets ≠ [] → (finalizeAutoExpand tweets nvars fname).2.2 = some fname) ∧
    (tweets = [] →
      finalizeAutoExpand tweets nvars fname =
        (JobStatus.FAILED, "No tweets found", none)) ∧
    (∀ n, (finalizeScraperThread n fname).1 = JobStatus.COMPLETED ↔ 0 < n) ∧
    (finalizeScraperThread 0 fname).2.2 = none := by
  refine ⟨?_, ?_, ?_, ?_, rfl⟩
  · by_cases h : tweets = [] <;> simp [finalizeAutoExpand, h]
  · intro h; simp [finalizeAutoExpand, h]
  · intro h; simp [finalizeAutoExpand, h]
  · intro n; by_cases h : 0 < n <;> simp [finalizeScraperThread, h]

/-- Concrete instance of C7: one accumulated record yields COMPLETED with
the artifact reference; an empty accumulation yields FAILED with none. -/
theorem terminal_status_iff_nonempty_witness :
    (finalizeAutoExpand [⟨"u", "t"⟩] 3 "out.csv").2.2 = some "out.csv" ∧
    finalizeAutoExpand [] 3 "out.csv" = (JobStatus.FAILED, "No tweets found", none) :=
  ⟨(terminal_status_iff_nonempty [⟨"u", "t"⟩] 3 "out.csv").2.1 (by simp),
    (terminal_status_iff_nonempty [] 3 "out.csv").2.2.1 rfl⟩

/-- Outcome of one secondary-source (Google) query: a result list, or a
raised exception carrying its message. -/
inductive FetchOutcome where
  | ok (results : List Record)
  | err (msg : String)
deriving DecidableEq

/-- Embeds the Google fallback of `run_auto_expand_batch` (src/app.py lines
939-971): a single `for fallback_kw in variations` loop wrapped as a whole
in one try/except. Iteration stops when the target is reached; each query
asks for `min(shortfall + 20, 150)` items; results are merged through the
same dedup accumulator. A raised exception propagates out of the loop to
the handler (which only logs), so the remaining variations are not
visited — the function returns the accumulator as it stood at the failure. -/
def fallbackGoogle (count : Nat) (fetch : String → Nat → FetchOutcome) :
    AccState → List String → AccState
  | acc, [] => acc
  | acc, kw :: rest =>
    if count ≤ acc.all_tweets.length then acc
    else
      match fetch kw (min (count - acc.all_tweets.length + 20) 150) with
      | FetchOutcome.ok items =>
          fallbackGoogle count fetch (mergeRecords acc items) rest
      | FetchOutcome.err _ => acc

theorem mergeRecords_append_tweets (ts : List Record) :
    ∀ acc : AccState, ∃ t, (mergeRecords acc ts).all_tweets = acc.all_tweets ++ t := by
  induction ts with
  | nil => intro acc; exact ⟨[], by simp [mergeRecords]⟩
  | cons r rs ih =>
    intro acc
    obtain ⟨t, ht⟩ := ih (mergeOne acc r)
    by_cases h : r.url ≠ "" ∧ r.url ∉ acc.seen_urls
    · refine ⟨[r] ++ t, ?_⟩
      show (mergeRecords (mergeOne acc r) rs).all_tweets = _
      rw [ht]
      simp [mergeOne, h]
    · refine ⟨t, ?_⟩
      show (mergeRecords (mergeOne acc r) rs).all_tweets = _
      rw [ht]
      simp [mergeOne, h]

theorem fallbackGoogle_tweets_prefix (count : Nat)
    (fetch : String → Nat → FetchOutcome) :
    ∀ (vs : List String) (acc : AccState),
      ∃ t, (fallbackGoogle count fetch acc vs).all_tweets = acc.all_tweets ++ t := by
  intro vs
  induction vs with
  | nil => intro acc; exact ⟨[], by simp [fallbackGoogle]⟩
  | cons kw rest ih =>
    intro acc
    by_cases hcap : count ≤ acc.all_tweets.length
    · exact ⟨[], by simp [fallbackGoogle, hcap]⟩
    · cases hf : fetch kw (min (count - acc.all_tweets.length + 20) 150) with
      | ok items =>
        obtain ⟨t1, ht1⟩ := mergeRecords_append_tweets items acc
        obtain ⟨t2, ht2⟩ := ih (mergeRecords acc items)
        refine ⟨t1 ++ t2, ?_⟩
        simp only [fallbackGoogle, if_neg hcap, hf]
        rw [ht2, ht1, List.append_assoc]
      | err msg =>
        exact ⟨[], by simp [fallbackGoogle, hcap, hf]⟩

/-- Secondary fetcher for the C6 counterexample: raises for keyword `a`,
returns one fresh record for any other keyword. -/
def fetchErrThenOk : String → Nat → FetchOutcome :=
  fun kw _ =>
    if kw = "a" then FetchOutcome.err "boom" else FetchOutcome.ok [⟨"gb", "g"⟩]

/-- C6 counterexample: with target 5, an accumulator holding one primary
record, and two fallback variations where the query for the first raises
and the second would return a fresh unique record, the fallback returns the
accumulator unchanged and the second variation's record is absent — the
failure aborted the remaining iterations instead of continuing with the
next variation as the claim states. -/
theorem fallback_abort_counterexample :
    fallbackGoogle 5 fetchErrThenOk (mergeRecords ⟨∅, []⟩ [⟨"p1", "t"⟩]) ["a", "b"] =
      mergeRecords ⟨∅, []⟩ [⟨"p1", "t"⟩] ∧
    (⟨"gb", "g"⟩ : Record) ∉
      (fallbackGoogle 5 fetchErrThenOk (mergeRecords ⟨∅, []⟩ [⟨"p1", "t"⟩])
        ["a", "b"]).all_tweets := by
  decide

/-- C6 amended: a secondary-source failure for one variation aborts the
remaining fallback iterations (the exception handler wraps the whole loop),
returning the accumulator as it stood; the failure is only logged, and it
never fails the job when the primary source already produced a non-empty
result — finalization still reports COMPLETED. -/
theorem fallback_failure_aborts_but_job_survives (count : Nat)
    (fetch : String → Nat → FetchOutcome) (acc : AccState) (kw : String)
    (rest : List String) (msg : String)
    (hneed : acc.all_tweets.length < count)
    (hfail : fetch kw (min (count - acc.all_tweets.length + 20) 150) =
      FetchOutcome.err msg) :
    fallbackGoogle count fetch acc (kw :: rest) = acc ∧
    (∀ (acc0 : AccState) (vs : List String) (nvars : Nat) (fname : String),
      acc0.all_tweets ≠ [] →
      (finalizeAutoExpand (fallbackGoogle count fetch acc0 vs).all_tweets nvars
        fname).1 = JobStatus.COMPLETED) := by
  constructor
  · have hcap : ¬ count ≤ acc.all_tweets.length := by omega
    simp [fallbackGoogle, hcap, hfail]
  · intro acc0 vs nvars fname hne
    obtain ⟨t, ht⟩ := fallbackGoogle_tweets_prefix count fetch vs acc0
    have hnonempty : (fallbackGoogle count fetch acc0 vs).all_tweets ≠ [] := by
      rw [ht]
      simp [hne]
    simp [finalizeAutoExpand, hnonempty]

/-- Concrete instance of C6 (amended): the failing first variation leaves
the accumulator untouched. -/
theorem fallback_failure_aborts_but_job_survives_witness :
    fallbackGoogle 5 fetchErrThenOk ⟨∅, [⟨"p1", "t"⟩]⟩ ["a", "b"] =
      (⟨∅, [⟨"p1", "t"⟩]⟩ : AccState) :=
  (fallback_failure_aborts_but_job_survives 5 fetchErrThenOk ⟨∅, [⟨"p1", "t"⟩]⟩
    "a" ["b"] "boom" (by decide) (by decide)).1

/-- Reference case folding used to state case-insensitivity claims:
lowercase every character. (`String.toLower` itself is defined by
position-based recursion that the kernel cannot reduce; this is the
equivalent executable form.) -/
def lowerStr (s : String) : String := String.mk (s.data.map Char.toLower)

/-- Embeds the variation bounding step
`variations = list(set(variations))[:60]` of `run_auto_expand_batch`
(src/app.py line 673): deduplicate by exact string equality, then truncate
to at most 60. `List.dedup` is a deterministic stand-in for Python's
arbitrary set iteration order: like `set`, it keeps exactly one copy of
each distinct string, which is all the claims here depend on. -/
def limitVariations (variations : List String) : List String :=
  variations.dedup.take 60

/-- C8 counterexample: the input `["Flood", "flood"]` — reachable since the
user's comma-separated keywords are seeded into the variation list verbatim
— survives the bounding step with both spellings intact: `set` deduplicates
by exact equality, so two variations equal up to letter case remain. -/
theorem case_insensitive_dedup_counterexample :
    "Flood" ∈ limitVariations ["Flood", "flood"] ∧
    "flood" ∈ limitVariations ["Flood", "flood"] ∧
    "Flood" ≠ "flood" ∧
    lowerStr "Flood" = lowerStr "flood" := by
  decide

/-- C8 amended: the final variation list is deduplicated by exact (case-
sensitive) string equality and truncated to a hard cap: it has length at
most 60, contains no two identical strings, and only strings from the
input; variations differing only in letter case may both survive. -/
theorem variation_cap_amended (vs : List String) :
    (limitVariations vs).length ≤ 60 ∧
    (limitVariations vs).Nodup ∧
    (∀ v ∈ limitVariations vs, v ∈ vs) := by
  refine ⟨vs.dedup.length_take_le 60, ?_, ?_⟩
  · exact vs.nodup_dedup.sublist (List.take_sublist _ _)
  · intro v hv
    exact List.mem_dedup.mp ((List.take_sublist _ _).subset hv)

/-- Concrete instance of C8 (amended): membership in the bounded list
implies membership in the input. -/
theorem variation_cap_amended_witness : ("a" : String) ∈ ["a"] :=
  (variation_cap_amended ["a"]).2.2 "a" (by decide)

/-- One job record of the in-memory store, with the fields `add_job`
initializes (src/services/job_store.py lines 15-37). -/
structure Job where
  id : String
  keyword : String
  target_count : Nat
  status : String
  progress : String
  result_file : Option String
  created_at : String
  worker_mode : Nat
  cancel_requested : Bool
deriving DecidableEq, Repr

/-- The per-entry mutation of `update_job_status`
(src/services/job_store.py lines 40-56): `status` is always overwritten;
`progress` and `result_file` are overwritten only when the argument is
truthy (`if progress:` / `if result_file:`), i.e. not `None` and not the
empty string; every other field is untouched. -/
def applyStatusUpdate (j : Job) (status : String)
    (progress result_file : Option String) : Job :=
  { j with
    status := status
    progress :=
      match progress with
      | some p => if p = "" then j.progress else p
      | none => j.progress
    result_file :=
      match result_file with
      | some f => if f = "" then j.result_file else some f
      | none => j.result_file }

/-- Embeds `update_job_status` over the `JOBS` dict, modelled as an
association list with the job id as key: the entry whose key is `job_id`
(if any) is replaced by its updated record; when `job_id` is absent the
`if job_id in JOBS` guard makes the call a no-op, and no error is raised
(the function is total). -/
def update_job_status (store : List (String × Job)) (job_id status : String)
    (progress result_file : Option String) : List (String × Job) :=
  store.map fun e =>
    if e.1 = job_id then (e.1, applyStatusUpdate e.2 status progress result_file)
    else e

theorem update_job_status_absent (store : List (String × Job))
    (job_id status : String) (progress result_file : Option String)
    (h : job_id ∉ store.map Prod.fst) :
    update_job_status store job_id status progress result_file = store := by
  induction store with
  | nil => rfl
  | cons e es ih =>
    simp only [List.map_cons, List.mem_cons] at h
    push_neg at h
    have h1 : ¬ e.1 = job_id := fun hc => h.1 hc.symm
    have h2 := ih h.2
    simp only [update_job_status, List.map_cons, if_neg h1]
    exact congrArg (List.cons e) h2

/-- C10: updating a job id that is not in the store leaves the store
entirely unchanged (and raises no error, the function being total); for a
present id only the `status`, `progress` and `result_file` fields may
change — `id`, `keyword`, `target_count`, `created_at`, `worker_mode` and
`cancel_requested` keep their values, entries with other keys are untouched
— and `progress` / `result_file` keep their previous values whenever the
corresponding argument is `None` or empty (falsy), so a stored result-file
reference is never cleared back to null by an update. -/
theorem update_job_status_frame (store : List (String × Job))
    (job_id status : String) (progress result_file : Option String) :
    (job_id ∉ store.map Prod.fst →
      update_job_status store job_id status progress result_file = store) ∧
    (∀ e ∈ store, e.1 ≠ job_id →
      e ∈ update_job_status store job_id status progress result_file) ∧
    (∀ e ∈ store, e.1 = job_id →
      (e.1, applyStatusUpdate e.2 status progress result_file) ∈
        update_job_status store job_id status progress result_file) ∧
    (∀ j : Job,
      (applyStatusUpdate j status progress result_file).id = j.id ∧
      (applyStatusUpdate j status progress result_file).keyword = j.keyword ∧
      (applyStatusUpdate j status progress result_file).target_count = j.target_count ∧
      (applyStatusUpdate j status progress result_file).created_at = j.created_at ∧
      (applyStatusUpdate j status progress result_file).worker_mode = j.worker_mode ∧
      (applyStatusUpdate j status progress result_file).cancel_requested =
        j.cancel_requested ∧
      (applyStatusUpdate j status progress result_file).status = status ∧
      (progress = none ∨ progress = some "" →
        (applyStatusUpdate j status progress result_file).progress = j.progress) ∧
      (result_file = none ∨ result_file = some "" →
        (applyStatusUpdate j status progress result_file).result_file =
          j.result_file) ∧
      (∀ f, j.result_file = some f →
        (applyStatusUpdate j status progress result_file).result_file ≠ none)) := by
  refine ⟨update_job_status_absent store job_id status progress result_file,
    ?_, ?_, ?_⟩
  · intro e he hne
    have : (if e.1 = job_id then
        (e.1, applyStatusUpdate e.2 status progress result_file) else e) = e :=
      if_neg hne
    exact this ▸ List.mem_map_of_mem _ he
  · intro e he heq
    have : (if e.1 = job_id then
        (e.1, applyStatusUpdate e.2 status progress result_file) else e) =
        (e.1, applyStatusUpdate e.2 status progress result_file) :=
      if_pos heq
    exact this ▸ List.mem_map_of_mem _ he
  · intro j
    refine ⟨rfl, rfl, rfl, rfl, rfl, rfl, rfl, ?_, ?_, ?_⟩
    · rintro (rfl | rfl) <;> simp [applyStatusUpdate]
    · rintro (rfl | rfl) <;> simp [applyStatusUpdate]
    · intro f hf
      cases result_file with
      | none => simp [applyStatusUpdate, hf]
      | some g =>
        by_cases hg : g = "" <;> simp [applyStatusUpdate, hg, hf]

/-- Concrete instance of C10: updating an absent job id leaves a one-entry
store unchanged. -/
theorem update_job_status_frame_witness :
    update_job_status
        [("j1", ⟨"j1", "kw", 5, "RUNNING", "Starting...", none, "t0", 3, false⟩)]
        "j2" "COMPLETED" (some "done") (some "out.csv") =
      [("j1", ⟨"j1", "kw", 5, "RUNNING", "Starting...", none, "t0", 3, false⟩)] :=
  (update_job_status_frame
      [("j1", ⟨"j1", "kw", 5, "RUNNING", "Starting...", none, "t0", 3, false⟩)]
      "j2" "COMPLETED" (some "done") (some "out.csv")).1 (by decide)

end AutoScraper
